import Mathlib

/-!
Shallow embedding of the XPCLR shell-script generation tool
(`scripts/xpclr.py`, with the superseded `scripts/xpclr.03-05.py` kept for
comparison where the two differ).

Python strings are modelled as `List Char` (`PyStr`); Python `dict`s (which
preserve insertion order and overwrite in place) are modelled as association
lists with an order-preserving insert.  Functions that can raise return
`Except`/`Option`; a Python function that falls off its end returns `none`
(Python's `None`).
-/

instance {ε α : Type} [DecidableEq ε] [DecidableEq α] : DecidableEq (Except ε α) := by
  intro x y
  cases x <;> cases y
  case error.error a b =>
    exact if h : a = b then .isTrue (by rw [h]) else .isFalse (by simp [h])
  case ok.ok a b =>
    exact if h : a = b then .isTrue (by rw [h]) else .isFalse (by simp [h])
  case error.ok a b => exact .isFalse (by simp)
  case ok.error a b => exact .isFalse (by simp)

/-- A Python string, modelled as its list of characters. -/
abbrev PyStr := List Char

/-- Convert a Lean string literal to the `PyStr` model. -/
def pystr (s : String) : PyStr := s.toList

/-- Python `s.startswith(pre)`. -/
def pyStartsWith (pre s : PyStr) : Bool := s.take pre.length == pre

/-- Python `sub in s` (substring containment). -/
def pyContains (sub s : PyStr) : Bool :=
  (List.range (s.length + 1)).any (fun i => pyStartsWith sub (s.drop i))

/-- Python `s.split(c)` for a single-character separator: always returns a
non-empty list of the separator-free chunks. -/
def splitOnChar (c : Char) : List Char → List (List Char)
  | [] => [[]]
  | x :: xs =>
    match splitOnChar c xs with
    | [] => [[]]
    | r :: rs => if x = c then [] :: r :: rs else (x :: r) :: rs

/-- Python `c.join(parts)` for a single-character separator. -/
def joinChar (c : Char) : List (List Char) → List Char
  | [] => []
  | [x] => x
  | x :: y :: rest => x ++ c :: joinChar c (y :: rest)

/-- Python `s[:-n]` for `0 < n ≤ len(s)` (drop the last `n` characters). -/
def pyStripLen (s : PyStr) (n : Nat) : PyStr := s.take (s.length - n)

/-- Lexicographic comparison of Python strings (`p1 <= p2`). -/
def pyStrLe : PyStr → PyStr → Bool
  | [], _ => true
  | _ :: _, [] => false
  | a :: as, b :: bs => if a = b then pyStrLe as bs else decide (a < b)

/-- Insertion step of Python's stable sort, by `pyStrLe`. -/
def insertSorted (x : PyStr) : List PyStr → List PyStr
  | [] => [x]
  | y :: ys => if pyStrLe x y then x :: y :: ys else y :: insertSorted x ys

/-- Python `sorted(...)` on strings, modelled as insertion sort by `pyStrLe`. -/
def sortStrs (l : List PyStr) : List PyStr := l.foldr insertSorted []

/-- Python `lst * n`: `n` concatenated copies of `lst`. -/
def listMul (xs : List PyStr) (n : Nat) : List PyStr := (List.replicate n xs).flatten

/-- The `ValueError`s `XPCLR.find_file_pairs` can raise. -/
inductive FindError where
  /-- `Unknown file found: {p}` -/
  | unknownFile (name : PyStr)
  /-- `{pattern} files count not equal, pop1: {n1}, pop2: {n2}` -/
  | countMismatch (n1 n2 : Nat)
  /-- `{pattern} files not found in {folder}` -/
  | noFilesFound
deriving DecidableEq

/-- The classification loop of `XPCLR.find_file_pairs`: each file name goes to
pop1 if it contains the pop1 token, else to pop2 if it contains the pop2
token, else the loop raises `Unknown file found`. -/
def classifyFiles (pop1 pop2 : PyStr) : List PyStr → Except FindError (List PyStr × List PyStr)
  | [] => .ok ([], [])
  | f :: fs =>
    if pyContains pop1 f then do
      let (l1, l2) ← classifyFiles pop1 pop2 fs
      .ok (f :: l1, l2)
    else if pyContains pop2 f then do
      let (l1, l2) ← classifyFiles pop1 pop2 fs
      .ok (l1, f :: l2)
    else .error (.unknownFile f)

/-- `XPCLR.find_file_pairs` (scripts/xpclr.py lines 134-165): classifies the
globbed file names, checks the two counts are equal and non-zero, sorts both
lists, prints them — and then ends without a `return` statement, so on
success the Python function returns `None` (modelled as `none`), never the
promised tuple of sorted lists. -/
def find_file_pairs (pop1 pop2 : PyStr) (files : List PyStr) :
    Except FindError (Option (List PyStr × List PyStr)) := do
  let (pop1_paths, pop2_paths) ← classifyFiles pop1 pop2 files
  if pop1_paths.length ≠ pop2_paths.length then
    .error (.countMismatch pop1_paths.length pop2_paths.length)
  else if pop1_paths.length ≤ 0 then
    .error .noFilesFound
  else
    let _sorted1 := sortStrs pop1_paths
    let _sorted2 := sortStrs pop2_paths
    .ok none

/-! ## The naming convention (class constants of `XPCLR`) -/

def DATA_SUFFIX : PyStr := pystr ".vcf.gz"

def FILTER_SUFFIX : PyStr := pystr ".filter.vcf.gz"

def OVERLAP_SUFFIX : PyStr := pystr ".overlap.vcf.gz"

def SPLIT_SUFFIX : PyStr := pystr ".vcf.gz"

def GENO_SUFFIX : PyStr := pystr ".geno"

def MAP_SUFFIX : PyStr := pystr ".map"

def XPCLR_SUFFIX : PyStr := pystr ".xpclr.txt"

/-- Iteration core of `natToDigits`; the fuel only bounds the recursion
depth and `value + 1` is always enough of it. -/
def natToDigitsGo : Nat → Nat → PyStr
  | 0, _ => []
  | fuel + 1, n =>
    if n < 10 then [Char.ofNat (48 + n)]
    else natToDigitsGo fuel (n / 10) ++ [Char.ofNat (48 + n % 10)]

/-- Python `str(n)` for a natural number: its decimal digits. -/
def natToDigits (n : Nat) : PyStr := natToDigitsGo (n + 1) n

/-- Python `int(s)` on a string of decimal digits. -/
def digitsToNat (s : PyStr) : Nat := s.foldl (fun a c => 10 * a + (c.toNat - 48)) 0

/-- `_generate_script_filter`: output name for one stage-1 input,
`in_path.name[:-len(DATA_SUFFIX)] + FILTER_SUFFIX`. -/
def filterOutName (n : PyStr) : PyStr := pyStripLen n DATA_SUFFIX.length ++ FILTER_SUFFIX

/-- `generate_scripts_overlap`: output name for one filter-stage input,
`p.name[:-len(FILTER_SUFFIX)] + OVERLAP_SUFFIX`. -/
def overlapOutName (n : PyStr) : PyStr := pyStripLen n FILTER_SUFFIX.length ++ OVERLAP_SUFFIX

/-- `_generate_script_split`: output name of one window,
`f"{chrid}-{lstart}-{lend}." + in_path.name[:-len(OVERLAP_SUFFIX)] + SPLIT_SUFFIX`. -/
def splitOutName (chrid : PyStr) (lstart lend : Nat) (n : PyStr) : PyStr :=
  chrid ++ '-' :: natToDigits lstart ++ '-' :: natToDigits lend ++ '.' ::
    pyStripLen n OVERLAP_SUFFIX.length ++ SPLIT_SUFFIX

/-- `_generate_script_genomap`: geno output name,
`in_path.name[:-len(SPLIT_SUFFIX)] + ".geno"`. -/
def genoOutName (n : PyStr) : PyStr := pyStripLen n SPLIT_SUFFIX.length ++ GENO_SUFFIX

/-- `_generate_script_genomap`: map output name,
`in_path.name[:-len(SPLIT_SUFFIX)] + ".map"`. -/
def mapOutName (n : PyStr) : PyStr := pyStripLen n SPLIT_SUFFIX.length ++ MAP_SUFFIX

/-- `generate_scripts_xpclr`: `".".join(g.name[:-len(GENO_SUFFIX)].split(".")[1:])`. -/
def xpclrBaseName (genoName : PyStr) : PyStr :=
  joinChar '.' ((splitOnChar '.' (pyStripLen genoName GENO_SUFFIX.length)).tail)

/-- `generate_scripts_xpclr`: `chr_interval = m.name.split(".")[0]`. -/
def chrIntervalOf (mapName : PyStr) : PyStr := (splitOnChar '.' mapName).headD []

/-- `re.search("\d+", s)`: the leftmost maximal run of decimal digits of
`s`, or `None` when `s` has no digit. -/
def reSearchDigits (s : PyStr) : Option PyStr :=
  match s.dropWhile (fun c => !c.isDigit) with
  | [] => none
  | t => some (t.takeWhile Char.isDigit)

/-- `generate_scripts_xpclr`:
`chrnum = int(re.search("\d+", chr_interval.split("-")[0]).group())`;
`none` models the `AttributeError` Python raises when the search fails. -/
def chrnumOfMapName (mapName : PyStr) : Option Nat :=
  (reSearchDigits ((splitOnChar '-' (chrIntervalOf mapName)).headD [])).map digitsToNat

/-- One emitted XPCLR invocation, as derived by `generate_scripts_xpclr` for a
`(geno1, geno2, map)` unit: the two base names, the window component, the
integer chromosome-number argument of the command, and the artifact name
(with the `.xpclr.txt` suffix the XPCLR binary appends). -/
structure XpclrUnit where
  name1 : PyStr
  name2 : PyStr
  chr_interval : PyStr
  chrnum : Nat
  artifact : PyStr
deriving DecidableEq

/-- The per-unit computation of `generate_scripts_xpclr`
(scripts/xpclr.py lines 369-391). -/
def xpclrUnitOf (g1 g2 m : PyStr) : Option XpclrUnit :=
  match chrnumOfMapName m with
  | none => none
  | some n =>
    let name1 := xpclrBaseName g1
    let name2 := xpclrBaseName g2
    let chr_interval := chrIntervalOf m
    some { name1, name2, chr_interval, chrnum := n,
           artifact := chr_interval ++ '.' :: name1 ++ '_' :: name2 ++ XPCLR_SUFFIX }

/-! ## The interval partitioner (`XPCLR._generate_script_split`) -/

/-- Iteration core of `rangeStep`; the fuel only bounds the recursion depth
and is irrelevant once it is at least `stop - s` (for a positive step). -/
def rangeStepGo (stop step : Nat) : Nat → Nat → List Nat
  | 0, _ => []
  | fuel + 1, s => if s < stop then s :: rangeStepGo stop step fuel (s + step) else []

/-- Python `range(start, stop, step)` for a positive step. -/
def rangeStep (start stop step : Nat) : List Nat :=
  rangeStepGo stop step (stop - start) start

/-- One window of the split stage: zero-based index bounds into the position
list and the position values stored at those bounds. -/
structure SplitWindow where
  lstart : Nat
  lend : Nat
  pos_start : PyStr
  pos_end : PyStr
deriving DecidableEq

/-- The window loop of `XPCLR._generate_script_split`
(scripts/xpclr.py lines 249-261): one window per `lstart` in
`range(0, len(positions), interval)`, with
`lend = min(lstart + interval - 1, len(positions) - 1)` and the bounding
position values read from the list. -/
def splitWindows (positions : List PyStr) (interval : Nat) : List SplitWindow :=
  (rangeStep 0 positions.length interval).map fun lstart =>
    let lend := min (lstart + interval - 1) (positions.length - 1)
    { lstart := lstart, lend := lend,
      pos_start := positions.getD lstart [], pos_end := positions.getD lend [] }

/-! ## The chromosome aligner (`XPCLR.generate_scripts_split` preprocessing) -/

/-- The `ValueError` raised by the per-chromosome resolution loop:
`{chrid} count incorrect in pop{pop} overlap.vcf.gz files, all pop{pop}
files: {files}`. -/
inductive SplitError where
  | chromResolution (chrid : PyStr) (pop : Nat) (files : List PyStr)
deriving DecidableEq

/-- The `for chrid in chrid_list` resolution loop of the `else` branch
(scripts/xpclr.py lines 296-304): exactly one file containing `chrid` must
exist per population, else a `ValueError` names the chrid and the full
candidate list. -/
def resolveChrids (chrids _pop1 _pop2 : List PyStr) :
    Except SplitError (List PyStr × List PyStr) :=
  match chrids with
  | [] => .ok ([], [])
  | chrid :: rest =>
    let p1 := _pop1.filter (fun x => pyContains chrid x)
    let p2 := _pop2.filter (fun x => pyContains chrid x)
    if p1.length ≤ 0 ∨ p1.length > 1 then .error (.chromResolution chrid 1 _pop1)
    else if p2.length ≤ 0 ∨ p2.length > 1 then .error (.chromResolution chrid 2 _pop2)
    else do
      let (r1, r2) ← resolveChrids rest _pop1 _pop2
      .ok (p1.headD [] :: r1, p2.headD [] :: r2)

/-- The "preprocess different vcf.gz count" block of
`XPCLR.generate_scripts_split` (scripts/xpclr.py lines 283-304), modelled
exactly as written: the originals are saved into `_pop1_overlap_paths` /
`_pop2_overlap_paths`, the working names are rebound to fresh empty lists,
and the single-file test and the replication then read the freshly emptied
`pop1_overlap_paths` — not the saved originals. -/
def preprocessSplit (pop1_overlap_paths pop2_overlap_paths chrid_list : List PyStr) :
    Except SplitError (List PyStr × List PyStr) :=
  let _pop1_overlap_paths := pop1_overlap_paths
  let _pop2_overlap_paths := pop2_overlap_paths
  let pop1_overlap_paths : List PyStr := []
  let pop2_overlap_paths : List PyStr := []
  if pop1_overlap_paths.length ≤ 1 then
    .ok (listMul pop1_overlap_paths chrid_list.length,
         listMul pop2_overlap_paths chrid_list.length)
  else
    resolveChrids chrid_list _pop1_overlap_paths _pop2_overlap_paths

/-- The same preprocessing block as written in the superseded script
(scripts/xpclr.03-05.py lines 115-136), where the single-file test and the
replication read the saved `_pop1_overlap_paths` / `_pop2_overlap_paths`. -/
def preprocessSplit0305 (pop1_overlap_paths pop2_overlap_paths chr_list : List PyStr) :
    Except SplitError (List PyStr × List PyStr) :=
  let _pop1_overlap_paths := pop1_overlap_paths
  let _pop2_overlap_paths := pop2_overlap_paths
  if _pop1_overlap_paths.length ≤ 1 then
    .ok (listMul _pop1_overlap_paths chr_list.length,
         listMul _pop2_overlap_paths chr_list.length)
  else
    resolveChrids chr_list _pop1_overlap_paths _pop2_overlap_paths

/-- The per-chromosome work units of `generate_scripts_split`:
`zip(chrid_list, pop1_overlap_paths, pop2_overlap_paths)`
(scripts/xpclr.py line 306). -/
def splitUnits (chrid_list p1 p2 : List PyStr) : List (PyStr × PyStr × PyStr) :=
  chrid_list.zip (p1.zip p2)

/-! ## The position indexer (`get_chrpos_from_vcfgz`) -/

/-- A Python `dict` from chromosome id to position list, as an insertion-
ordered association list. -/
abbrev ChrPos := List (PyStr × List PyStr)

/-- Python `d[k] = v`: overwrite in place when the key exists (its position
in the insertion order is kept), append otherwise. -/
def dictInsert (d : ChrPos) (k : PyStr) (v : List PyStr) : ChrPos :=
  if d.any (fun p => p.1 == k) then
    d.map (fun p => if p.1 = k then (p.1, v) else p)
  else d ++ [(k, v)]

/-- The streaming loop of `get_chrpos_from_vcfgz`
(scripts/xpclr.py lines 59-79), carrying `last_chrid`, the open run
`positions` and the dict built so far.  Lines starting with `#` are skipped;
a data line is split on tab and must yield at least two fields
(`chrid, pos, *_ = line.split("\t")`; fewer is a `ValueError`, modelled as
`none`); a changed chromosome id closes the open run into the dict and opens
a new one; the final open run is closed after the loop. -/
def chrposGo (last : Option PyStr) (positions : List PyStr) (dict : ChrPos) :
    List PyStr → Option ChrPos
  | [] =>
    some (match last with
          | some c => if positions.length > 0 then dictInsert dict c positions else dict
          | none => dict)
  | line :: rest =>
    if pyStartsWith (pystr "#") line then chrposGo last positions dict rest
    else
      match splitOnChar '\t' line with
      | chrid :: pos :: _ =>
        if some chrid ≠ last then
          let dict' := match last with
            | some c => if positions.length > 0 then dictInsert dict c positions else dict
            | none => dict
          chrposGo (some chrid) [pos] dict' rest
        else chrposGo last (positions ++ [pos]) dict rest
      | _ => none

/-- `get_chrpos_from_vcfgz`, taking the decompressed file as its list of
lines. -/
def get_chrpos_from_vcfgz (lines : List PyStr) : Option ChrPos :=
  chrposGo none [] [] lines

/-! ## Spec-side reference for the position indexer

These definitions follow the spec's words ("skips header lines, splits each
data line on the tab delimiter taking the first two fields, groups maximal
runs of consecutive lines sharing a chromosome id, a non-contiguous
reappearance overwrites the earlier run") and are compared with
`get_chrpos_from_vcfgz` by theorem. -/

/-- Spec reference: the `(chromosome id, position)` pairs of the data lines,
in file order; `none` when some data line has fewer than two tab-separated
fields. -/
def parseDataLines : List PyStr → Option (List (PyStr × PyStr))
  | [] => some []
  | line :: rest =>
    if pyStartsWith (pystr "#") line then parseDataLines rest
    else
      match splitOnChar '\t' line with
      | chrid :: pos :: _ => (parseDataLines rest).map (fun l => (chrid, pos) :: l)
      | _ => none

/-- Spec reference: prepend a run `(c, ps)` to a run list, merging with the
head run when it has the same chromosome id. -/
def consRun (c : PyStr) (ps : List PyStr) : List (PyStr × List PyStr) → List (PyStr × List PyStr)
  | [] => [(c, ps)]
  | (c', ps') :: t => if c = c' then (c, ps ++ ps') :: t else (c, ps) :: (c', ps') :: t

/-- Spec reference: the maximal runs of consecutive pairs sharing a
chromosome id, each with its ordered positions. -/
def runsRef : List (PyStr × PyStr) → List (PyStr × List PyStr)
  | [] => []
  | (c, p) :: rest => consRun c [p] (runsRef rest)

/-- Spec reference for `get_chrpos_from_vcfgz`: parse the data lines, group
them into maximal consecutive runs, and enter the runs into the dict in file
order (a reappearing chromosome id overwrites the earlier entry). -/
def chrposSpec (lines : List PyStr) : Option ChrPos :=
  (parseDataLines lines).map
    (fun prs => (runsRef prs).foldl (fun d r => dictInsert d r.1 r.2) [])

/-! ## Stage work-unit lists (`generate_scripts_filter` / `_overlap` /
`_genomap` with explicitly supplied inputs) -/

/-- The unit loop of `generate_scripts_filter` (scripts/xpclr.py lines
189-198): `for p1, p2 in zip(pop1_data_paths, pop2_data_paths)`, each side
producing its filter output name. -/
def filterStageOutputs (pop1_data_paths pop2_data_paths : List PyStr) :
    List PyStr × List PyStr :=
  let pairs := pop1_data_paths.zip pop2_data_paths
  (pairs.map (fun pr => filterOutName pr.1), pairs.map (fun pr => filterOutName pr.2))

/-- The unit loop of `generate_scripts_overlap` (scripts/xpclr.py lines
208-242): `for p1, p2 in zip(...)`, each side producing its overlap output
name. -/
def overlapStageOutputs (pop1_filter_paths pop2_filter_paths : List PyStr) :
    List PyStr × List PyStr :=
  let pairs := pop1_filter_paths.zip pop2_filter_paths
  (pairs.map (fun pr => overlapOutName pr.1), pairs.map (fun pr => overlapOutName pr.2))

/-- The unit loop of `generate_scripts_genomap` (scripts/xpclr.py lines
340-356): `for p1, p2 in zip(...)`, each side producing its geno and map
output names. -/
def genomapStageOutputs (pop1_split_paths pop2_split_paths : List PyStr) :
    (List PyStr × List PyStr) × (List PyStr × List PyStr) :=
  let pairs := pop1_split_paths.zip pop2_split_paths
  ((pairs.map (fun pr => genoOutName pr.1), pairs.map (fun pr => genoOutName pr.2)),
   (pairs.map (fun pr => mapOutName pr.1), pairs.map (fun pr => mapOutName pr.2)))

/-- The streaming loop of `get_chrpos_from_vcfgz` restricted to the already
parsed `(chromosome id, position)` pairs; the parsing and this loop together
make up `chrposGo`. -/
def chrposLoop (last : Option PyStr) (positions : List PyStr) (dict : ChrPos) :
    List (PyStr × PyStr) → ChrPos
  | [] =>
    match last with
    | some c => if positions.length > 0 then dictInsert dict c positions else dict
    | none => dict
  | (chrid, pos) :: rest =>
    if some chrid ≠ last then
      let dict' := match last with
        | some c => if positions.length > 0 then dictInsert dict c positions else dict
        | none => dict
      chrposLoop (some chrid) [pos] dict' rest
    else chrposLoop last (positions ++ [pos]) dict rest

/-- `generate_scripts_xpclr`: the artifact name of one `(geno1, geno2, map)`
unit, `f"{chr_interval}.{name1}_{name2}"` plus the `.xpclr.txt` suffix the
XPCLR binary appends (scripts/xpclr.py line 386). -/
def xpclrArtifactName (g1 g2 m : PyStr) : PyStr :=
  chrIntervalOf m ++ '.' :: xpclrBaseName g1 ++ '_' :: xpclrBaseName g2 ++ XPCLR_SUFFIX

/-- The full naming chain of the five stages: from the two stage-1 input
names and one window of one chromosome to the stage-5 artifact name. -/
def stage5ArtifactName (n1 n2 chrid : PyStr) (lstart lend : Nat) : PyStr :=
  xpclrArtifactName
    (genoOutName (splitOutName chrid lstart lend (overlapOutName (filterOutName n1))))
    (genoOutName (splitOutName chrid lstart lend (overlapOutName (filterOutName n2))))
    (mapOutName (splitOutName chrid lstart lend (overlapOutName (filterOutName n1))))

/-! ## Helper lemmas -/

lemma listMul_nil (n : Nat) : listMul [] n = [] := by
  simp [listMul]

lemma classifyFiles_eq (pop1 pop2 : PyStr) :
    ∀ files : List PyStr, (∀ f ∈ files, pyContains pop1 f = true ∨ pyContains pop2 f = true) →
      classifyFiles pop1 pop2 files =
        .ok (files.filter (fun f => pyContains pop1 f),
             files.filter (fun f => !pyContains pop1 f && pyContains pop2 f)) := by
  intro files h
  induction files with
  | nil => rfl
  | cons f fs ih =>
    have hf := h f (by simp)
    have hrest : ∀ g ∈ fs, pyContains pop1 g = true ∨ pyContains pop2 g = true :=
      fun g hg => h g (by simp [hg])
    by_cases h1 : pyContains pop1 f = true
    · simp [classifyFiles, h1, ih hrest, List.filter, bind, Except.bind]
    · have h2 : pyContains pop2 f = true := by
        rcases hf with hf | hf
        · exact absurd hf h1
        · exact hf
      simp [classifyFiles, h1, h2, ih hrest, List.filter, bind, Except.bind]

lemma classifyFiles_unknown (pop1 pop2 : PyStr) :
    ∀ files : List PyStr,
      (∃ f ∈ files, pyContains pop1 f = false ∧ pyContains pop2 f = false) →
      ∃ f ∈ files, classifyFiles pop1 pop2 files = .error (.unknownFile f) ∧
        pyContains pop1 f = false ∧ pyContains pop2 f = false := by
  intro files h
  induction files with
  | nil => simp at h
  | cons f fs ih =>
    by_cases h1 : pyContains pop1 f = true
    · obtain ⟨g, hg, hg1, hg2⟩ := h
      have hgfs : g ∈ fs := by
        rcases List.mem_cons.mp hg with rfl | hgfs
        · exact absurd h1 (by simp [hg1])
        · exact hgfs
      obtain ⟨w, hw, hweq, hw1, hw2⟩ := ih ⟨g, hgfs, hg1, hg2⟩
      exact ⟨w, by simp [hw], by simp [classifyFiles, h1, hweq, bind, Except.bind], hw1, hw2⟩
    · by_cases h2 : pyContains pop2 f = true
      · obtain ⟨g, hg, hg1, hg2⟩ := h
        have hgfs : g ∈ fs := by
          rcases List.mem_cons.mp hg with rfl | hgfs
          · exact absurd h2 (by simp [hg2])
          · exact hgfs
        obtain ⟨w, hw, hweq, hw1, hw2⟩ := ih ⟨g, hgfs, hg1, hg2⟩
        exact ⟨w, by simp [hw], by simp [classifyFiles, h1, h2, hweq, bind, Except.bind], hw1, hw2⟩
      · refine ⟨f, by simp, ?_, by simpa using h1, by simpa using h2⟩
        simp [classifyFiles, h1, h2]


lemma find_file_pairs_ok_iff (pop1 pop2 : PyStr) (files : List PyStr)
    (r : Option (List PyStr × List PyStr)) (h : find_file_pairs pop1 pop2 files = .ok r) :
    r = none := by
  unfold find_file_pairs at h
  cases hc : classifyFiles pop1 pop2 files with
  | error e => rw [hc] at h; simp [bind, Except.bind] at h
  | ok p =>
    rw [hc] at h
    obtain ⟨l1, l2⟩ := p
    simp only [bind, Except.bind] at h
    split at h
    · simp at h
    · split at h
      · simp at h
      · simp at h; exact h.symm

lemma zip_take_min (l1 l2 : List PyStr) :
    l1.zip l2 = (l1.take (min l1.length l2.length)).zip (l2.take (min l1.length l2.length)) := by
  induction l1 generalizing l2 with
  | nil => simp
  | cons a as ih =>
    cases l2 with
    | nil => simp
    | cons b bs =>
      simp only [List.zip_cons_cons, List.length_cons]
      rw [Nat.succ_min_succ, List.take_succ_cons, List.take_succ_cons, List.zip_cons_cons,
        ← ih bs]

/-! ## Claim theorems -/

/-- C1: code bug — `XPCLR.find_file_pairs` ends without a `return` statement,
so even on a directory whose matching files each carry exactly one population
token with equal positive counts it returns Python's `None` instead of the
documented pair of sorted sequences; shown in general and evaluated on the
concrete valid input `["A.vcf.gz", "B.vcf.gz"]` with tokens `A`/`B`. -/
theorem find_file_pairs_returns_none :
    (∀ pop1 pop2 files r, find_file_pairs pop1 pop2 files = .ok r → r = none) ∧
    find_file_pairs (pystr "A") (pystr "B") [pystr "A.vcf.gz", pystr "B.vcf.gz"] = .ok none :=
  ⟨fun _ _ _ _ h => find_file_pairs_ok_iff _ _ _ _ h, by decide⟩

/-- C5: `find_file_pairs` raises `Unknown file found` when some matched file
contains neither token; otherwise `count not equal` when the two classified
sequences differ in length; otherwise `files not found` when the (equal-length)
sequences are empty; and raises nothing when none of these conditions holds. -/
theorem find_file_pairs_error_taxonomy (pop1 pop2 : PyStr) (files : List PyStr) :
    ((∃ f ∈ files, pyContains pop1 f = false ∧ pyContains pop2 f = false) →
      ∃ f ∈ files, find_file_pairs pop1 pop2 files = .error (.unknownFile f) ∧
        pyContains pop1 f = false ∧ pyContains pop2 f = false) ∧
    ((∀ f ∈ files, pyContains pop1 f = true ∨ pyContains pop2 f = true) →
      (files.filter (fun f => pyContains pop1 f)).length ≠
        (files.filter (fun f => !pyContains pop1 f && pyContains pop2 f)).length →
      find_file_pairs pop1 pop2 files =
        .error (.countMismatch (files.filter (fun f => pyContains pop1 f)).length
          (files.filter (fun f => !pyContains pop1 f && pyContains pop2 f)).length)) ∧
    ((∀ f ∈ files, pyContains pop1 f = true ∨ pyContains pop2 f = true) →
      (files.filter (fun f => pyContains pop1 f)).length =
        (files.filter (fun f => !pyContains pop1 f && pyContains pop2 f)).length →
      (files.filter (fun f => pyContains pop1 f) = [] ∨
        files.filter (fun f => !pyContains pop1 f && pyContains pop2 f) = []) →
      find_file_pairs pop1 pop2 files = .error .noFilesFound) ∧
    ((∀ f ∈ files, pyContains pop1 f = true ∨ pyContains pop2 f = true) →
      (files.filter (fun f => pyContains pop1 f)).length =
        (files.filter (fun f => !pyContains pop1 f && pyContains pop2 f)).length →
      files.filter (fun f => pyContains pop1 f) ≠ [] →
      ∃ r, find_file_pairs pop1 pop2 files = .ok r) := by
  refine ⟨?_, ?_, ?_, ?_⟩
  · intro h
    obtain ⟨w, hw, hweq, hw1, hw2⟩ := classifyFiles_unknown pop1 pop2 files h
    exact ⟨w, hw, by simp [find_file_pairs, hweq, bind, Except.bind], hw1, hw2⟩
  · intro h hne
    simp [find_file_pairs, classifyFiles_eq pop1 pop2 files h, bind, Except.bind, hne]
  · intro h heq hemp
    have h1 : files.filter (fun f => pyContains pop1 f) = [] := by
      rcases hemp with hemp | hemp
      · exact hemp
      · exact List.eq_nil_of_length_eq_zero (by rw [heq, hemp]; rfl)
    have h2 : (files.filter (fun f => !pyContains pop1 f && pyContains pop2 f)).length = 0 := by
      rw [h1] at heq
      simpa using heq.symm
    simp [find_file_pairs, classifyFiles_eq pop1 pop2 files h, bind, Except.bind, h1, h2]
  · intro h heq hne
    refine ⟨none, ?_⟩
    have hlen : (files.filter (fun f => pyContains pop1 f)).length ≠ 0 := by
      intro hc
      exact hne (List.eq_nil_of_length_eq_zero hc)
    simp only [find_file_pairs, classifyFiles_eq pop1 pop2 files h, bind, Except.bind]
    rw [if_neg (by omega), if_neg (by omega)]

/-- C5 witness: the four branches of `find_file_pairs_error_taxonomy`
instantiated at concrete inputs with tokens `A`/`B`. -/
theorem find_file_pairs_error_taxonomy_witness :
    (∃ f ∈ [pystr "C.x"], find_file_pairs (pystr "A") (pystr "B") [pystr "C.x"] =
        .error (.unknownFile f) ∧ pyContains (pystr "A") f = false ∧
        pyContains (pystr "B") f = false) ∧
    find_file_pairs (pystr "A") (pystr "B") [pystr "A1", pystr "A2", pystr "B1"] =
      .error (.countMismatch 2 1) ∧
    find_file_pairs (pystr "A") (pystr "B") ([] : List PyStr) = .error .noFilesFound ∧
    ∃ r, find_file_pairs (pystr "A") (pystr "B") [pystr "A1", pystr "B1"] = .ok r :=
  ⟨(find_file_pairs_error_taxonomy (pystr "A") (pystr "B") [pystr "C.x"]).1 (by decide),
   (find_file_pairs_error_taxonomy (pystr "A") (pystr "B")
      [pystr "A1", pystr "A2", pystr "B1"]).2.1 (by decide) (by decide),
   (find_file_pairs_error_taxonomy (pystr "A") (pystr "B") []).2.2.1 (by decide) (by decide)
      (by decide),
   (find_file_pairs_error_taxonomy (pystr "A") (pystr "B") [pystr "A1", pystr "B1"]).2.2.2
      (by decide) (by decide) (by decide)⟩

/-- C2: code bug — the "preprocess different vcf.gz count" block of
`XPCLR.generate_scripts_split` tests and replicates the freshly emptied
rebinding of `pop1_overlap_paths` instead of the saved originals, so for
every input (in particular a single overlap file per population with several
declared chromosome ids) the aligned lists are empty and zero per-chromosome
split units are emitted, instead of one unit per chromosome id pairing the
single file with that id; the superseded script's version of the same block
(`preprocessSplit0305`) shows the intended replication. -/
theorem split_single_file_replication_bug :
    (∀ pop1_overlap_paths pop2_overlap_paths chrid_list : List PyStr,
      preprocessSplit pop1_overlap_paths pop2_overlap_paths chrid_list = .ok ([], [])) ∧
    preprocessSplit [pystr "sativa133.overlap.vcf.gz"] [pystr "serriola199.overlap.vcf.gz"]
      [pystr "chr1", pystr "chr2"] = .ok ([], []) ∧
    splitUnits [pystr "chr1", pystr "chr2"] [] [] = [] ∧
    preprocessSplit0305 [pystr "sativa133.overlap.vcf.gz"] [pystr "serriola199.overlap.vcf.gz"]
      [pystr "chr1", pystr "chr2"] =
      .ok ([pystr "sativa133.overlap.vcf.gz", pystr "sativa133.overlap.vcf.gz"],
           [pystr "serriola199.overlap.vcf.gz", pystr "serriola199.overlap.vcf.gz"]) := by
  refine ⟨fun p1 p2 c => ?_, by decide, by decide, by decide⟩
  simp [preprocessSplit, listMul_nil]

/-- C6: code bug — because the single-file test reads the freshly emptied
rebinding, the per-chromosome resolution loop of
`XPCLR.generate_scripts_split` is dead code: with two overlap files per
population and a declared chromosome id `chr3` matching none of them, the
claimed `ValueError` is never raised and the function silently aligns zero
files, while the superseded script's version of the block raises exactly the
claimed error naming the id and the full candidate list (and resolves
without error when every declared id matches exactly one file per
population). -/
theorem split_chromosome_resolution_dead_code :
    preprocessSplit
        [pystr "sativa133.chr1.overlap.vcf.gz", pystr "sativa133.chr2.overlap.vcf.gz"]
        [pystr "serriola199.chr1.overlap.vcf.gz", pystr "serriola199.chr2.overlap.vcf.gz"]
        [pystr "chr3"] = .ok ([], []) ∧
    preprocessSplit0305
        [pystr "sativa133.chr1.overlap.vcf.gz", pystr "sativa133.chr2.overlap.vcf.gz"]
        [pystr "serriola199.chr1.overlap.vcf.gz", pystr "serriola199.chr2.overlap.vcf.gz"]
        [pystr "chr3"] =
      .error (.chromResolution (pystr "chr3") 1
        [pystr "sativa133.chr1.overlap.vcf.gz", pystr "sativa133.chr2.overlap.vcf.gz"]) ∧
    preprocessSplit0305
        [pystr "sativa133.chr1.overlap.vcf.gz", pystr "sativa133.chr2.overlap.vcf.gz"]
        [pystr "serriola199.chr1.overlap.vcf.gz", pystr "serriola199.chr2.overlap.vcf.gz"]
        [pystr "chr1", pystr "chr2"] =
      .ok ([pystr "sativa133.chr1.overlap.vcf.gz", pystr "sativa133.chr2.overlap.vcf.gz"],
           [pystr "serriola199.chr1.overlap.vcf.gz", pystr "serriola199.chr2.overlap.vcf.gz"]) := by
  refine ⟨by decide, by decide, by decide⟩

/-- C10: the unit loops of `generate_scripts_filter`,
`generate_scripts_overlap` and `generate_scripts_genomap` iterate over
`zip(pop1_list, pop2_list)`, so with explicitly supplied input lists of
unequal lengths no error is raised: exactly `min` of the two lengths units
are processed and the excess entries of the longer list are ignored (the
outputs coincide with those computed from the truncated lists). -/
theorem stage_loops_truncate_to_min (l1 l2 : List PyStr) :
    ((filterStageOutputs l1 l2).1.length = min l1.length l2.length ∧
     (filterStageOutputs l1 l2).2.length = min l1.length l2.length ∧
     filterStageOutputs l1 l2 =
       filterStageOutputs (l1.take (min l1.length l2.length))
         (l2.take (min l1.length l2.length))) ∧
    ((overlapStageOutputs l1 l2).1.length = min l1.length l2.length ∧
     (overlapStageOutputs l1 l2).2.length = min l1.length l2.length ∧
     overlapStageOutputs l1 l2 =
       overlapStageOutputs (l1.take (min l1.length l2.length))
         (l2.take (min l1.length l2.length))) ∧
    ((genomapStageOutputs l1 l2).1.1.length = min l1.length l2.length ∧
     (genomapStageOutputs l1 l2).1.2.length = min l1.length l2.length ∧
     (genomapStageOutputs l1 l2).2.1.length = min l1.length l2.length ∧
     (genomapStageOutputs l1 l2).2.2.length = min l1.length l2.length ∧
     genomapStageOutputs l1 l2 =
       genomapStageOutputs (l1.take (min l1.length l2.length))
         (l2.take (min l1.length l2.length))) := by
  have hz := zip_take_min l1 l2
  have hlen : (l1.zip l2).length = min l1.length l2.length := List.length_zip l1 l2
  refine ⟨⟨?_, ?_, ?_⟩, ⟨?_, ?_, ?_⟩, ⟨?_, ?_, ?_, ?_, ?_⟩⟩ <;>
    simp [filterStageOutputs, overlapStageOutputs, genomapStageOutputs, hlen, ← hz]

lemma rangeStepGo_congr (stop step : Nat) (hp : 0 < step) :
    ∀ f1 f2 s : Nat, stop - s ≤ f1 → stop - s ≤ f2 →
      rangeStepGo stop step f1 s = rangeStepGo stop step f2 s := by
  intro f1
  induction f1 with
  | zero =>
    intro f2 s h1 h2
    have hs : ¬ s < stop := by omega
    cases f2 with
    | zero => rfl
    | succ f2 => simp [rangeStepGo, hs]
  | succ f1 ih =>
    intro f2 s h1 h2
    by_cases hs : s < stop
    · cases f2 with
      | zero => omega
      | succ f2 =>
        simp only [rangeStepGo, if_pos hs]
        exact congrArg _ (ih f2 (s + step) (by omega) (by omega))
    · cases f2 with
      | zero => simp [rangeStepGo, hs]
      | succ f2 => simp [rangeStepGo, hs]

lemma rangeStep_cons (start stop step : Nat) (hp : 0 < step) :
    rangeStep start stop step =
      if start < stop then start :: rangeStep (start + step) stop step else [] := by
  by_cases h : start < stop
  · have h1 : stop - start = (stop - start - 1) + 1 := by omega
    rw [rangeStep, h1, if_pos h]
    simp only [rangeStepGo, if_pos h]
    exact congrArg _ (rangeStepGo_congr stop step hp _ _ _ (by omega) (by omega))
  · have h1 : stop - start = 0 := by omega
    rw [rangeStep, h1, if_neg h]
    rfl

lemma rangeStep_eq_range_map (stop step : Nat) (hp : 0 < step) :
    ∀ start, rangeStep start stop step =
      (List.range ((stop - start + step - 1) / step)).map (fun i => start + i * step) := by
  suffices h : ∀ n start, stop - start ≤ n → rangeStep start stop step =
      (List.range ((stop - start + step - 1) / step)).map (fun i => start + i * step) by
    intro start
    exact h (stop - start) start le_rfl
  intro n
  induction n with
  | zero =>
    intro start h
    have h2 : ¬ start < stop := by omega
    have h3 : stop - start = 0 := by omega
    rw [rangeStep_cons _ _ _ hp, if_neg h2, h3]
    have h4 : (0 + step - 1) / step = 0 := Nat.div_eq_of_lt (by omega)
    rw [h4]
    rfl
  | succ n ih =>
    intro start h
    by_cases hlt : start < stop
    · rw [rangeStep_cons _ _ _ hp, if_pos hlt, ih (start + step) (by omega)]
      have hc : (stop - start + step - 1) / step =
          (stop - (start + step) + step - 1) / step + 1 := by
        by_cases hle : stop - start ≤ step
        · have e1 : stop - (start + step) + step - 1 = step - 1 := by omega
          have e2 : (step - 1) / step = 0 := Nat.div_eq_of_lt (by omega)
          rw [e1, e2]
          have e3 : stop - start + step - 1 < 2 * step := by omega
          have e4 : step ≤ stop - start + step - 1 := by omega
          have e5 := Nat.div_eq_of_lt_le (by omega : 1 * step ≤ stop - start + step - 1)
            (by omega : stop - start + step - 1 < (1 + 1) * step)
          omega
        · have e1 : stop - (start + step) + step - 1 = stop - start - 1 := by omega
          have e2 : stop - start + step - 1 = (stop - start - 1) + step := by omega
          rw [e1, e2, Nat.add_div_right _ hp]
      rw [hc, List.range_succ_eq_map]
      have hfun : (fun i => start + step + i * step) = (fun i => start + Nat.succ i * step) := by
        funext i
        rw [Nat.succ_mul]
        ring
      simp only [List.map_cons, List.map_map, Function.comp, Nat.zero_mul, Nat.add_zero]
      rw [hfun]
      rfl
    · have h3 : stop - start = 0 := by omega
      rw [rangeStep_cons _ _ _ hp, if_neg hlt, h3]
      have h4 : (0 + step - 1) / step = 0 := Nat.div_eq_of_lt (by omega)
      rw [h4]
      rfl

lemma splitWindows_eq (positions : List PyStr) (interval : Nat) (hp : 0 < interval) :
    splitWindows positions interval =
      (List.range ((positions.length + interval - 1) / interval)).map (fun k =>
        { lstart := k * interval,
          lend := min (k * interval + interval - 1) (positions.length - 1),
          pos_start := positions.getD (k * interval) [],
          pos_end := positions.getD
            (min (k * interval + interval - 1) (positions.length - 1)) [] }) := by
  unfold splitWindows
  rw [rangeStep_eq_range_map _ _ hp 0]
  simp only [Nat.sub_zero, List.map_map, Function.comp, Nat.zero_add]
  rfl

lemma splitWindows_getD (positions : List PyStr) (interval : Nat) (hp : 0 < interval)
    (k : Nat) (hk : k < (positions.length + interval - 1) / interval) :
    (splitWindows positions interval).getD k ⟨0, 0, [], []⟩ =
      { lstart := k * interval,
        lend := min (k * interval + interval - 1) (positions.length - 1),
        pos_start := positions.getD (k * interval) [],
        pos_end := positions.getD
          (min (k * interval + interval - 1) (positions.length - 1)) [] } := by
  rw [splitWindows_eq positions interval hp]
  rw [List.getD_eq_getElem?_getD, List.getElem?_map, List.getElem?_range hk]
  rfl

lemma ceil_div_mul_ge (L I : Nat) (hI : 0 < I) : L ≤ ((L + I - 1) / I) * I := by
  by_contra hcon
  push_neg at hcon
  have h2 : ((L + I - 1) / I + 1) * I ≤ L + I - 1 := by
    rw [Nat.succ_mul]
    omega
  have h3 : (L + I - 1) / I + 1 ≤ (L + I - 1) / I := (Nat.le_div_iff_mul_le hI).mpr h2
  omega

/-- C3: the split loop partitions a position list of length `L` with interval
`I > 0` into `ceil(L / I)` windows; window `k` spans zero-based indices
`[k*I, min((k+1)*I - 1, L-1)]`; the windows cover every index `0 ≤ i < L`
exactly once (index `i` lies in window `k` iff `k = i / I`, so they are
contiguous and non-overlapping); the last window ends at index `L - 1`; each
window carries the position values stored at its two bounding indices; and
`L = 0` yields zero windows. -/
theorem splitWindows_partition_spec (positions : List PyStr) (interval : Nat)
    (hI : 0 < interval) :
    (splitWindows positions interval).length =
        (positions.length + interval - 1) / interval ∧
    (∀ k, k < (splitWindows positions interval).length →
      ((splitWindows positions interval).getD k ⟨0, 0, [], []⟩).lstart = k * interval ∧
      ((splitWindows positions interval).getD k ⟨0, 0, [], []⟩).lend =
        min ((k + 1) * interval - 1) (positions.length - 1) ∧
      ((splitWindows positions interval).getD k ⟨0, 0, [], []⟩).pos_start =
        positions.getD (k * interval) [] ∧
      ((splitWindows positions interval).getD k ⟨0, 0, [], []⟩).pos_end =
        positions.getD (min ((k + 1) * interval - 1) (positions.length - 1)) []) ∧
    (∀ i, i < positions.length → ∀ k, k < (splitWindows positions interval).length →
      ((((splitWindows positions interval).getD k ⟨0, 0, [], []⟩).lstart ≤ i ∧
        i ≤ (((splitWindows positions interval).getD k ⟨0, 0, [], []⟩)).lend) ↔
       k = i / interval)) ∧
    (positions.length ≠ 0 →
      ((splitWindows positions interval).getD
        ((splitWindows positions interval).length - 1) ⟨0, 0, [], []⟩).lend =
        positions.length - 1) ∧
    (positions.length = 0 → splitWindows positions interval = []) := by
  have hlen : (splitWindows positions interval).length =
      (positions.length + interval - 1) / interval := by
    rw [splitWindows_eq positions interval hI, List.length_map, List.length_range]
  have hmul : ∀ k : Nat, (k + 1) * interval - 1 = k * interval + interval - 1 := by
    intro k
    rw [Nat.succ_mul]
  refine ⟨hlen, ?_, ?_, ?_, ?_⟩
  · intro k hk
    rw [hlen] at hk
    rw [splitWindows_getD positions interval hI k hk, hmul k]
    exact ⟨rfl, rfl, rfl, rfl⟩
  · intro i hi k hk
    rw [hlen] at hk
    rw [splitWindows_getD positions interval hI k hk]
    simp only
    have hmod : i % interval < interval := Nat.mod_lt _ hI
    have hdm : i / interval * interval + i % interval = i := Nat.div_add_mod' i interval
    constructor
    · rintro ⟨h1, h2⟩
      have h3 : i ≤ k * interval + interval - 1 := le_trans h2 (Nat.min_le_left _ _)
      have h4 : i < (k + 1) * interval := by
        rw [Nat.succ_mul]
        omega
      exact (Nat.div_eq_of_lt_le h1 h4).symm
    · rintro rfl
      refine ⟨Nat.div_mul_le_self i interval, le_min ?_ (by omega)⟩
      omega
  · intro hL
    have hc1 : 1 ≤ (positions.length + interval - 1) / interval := by
      rw [Nat.le_div_iff_mul_le hI]
      omega
    have hceil := ceil_div_mul_ge positions.length interval hI
    have hk : (positions.length + interval - 1) / interval - 1 <
        (positions.length + interval - 1) / interval := by omega
    rw [hlen, splitWindows_getD positions interval hI _ hk]
    simp only
    have he : ((positions.length + interval - 1) / interval - 1) * interval + interval =
        ((positions.length + interval - 1) / interval) * interval := by
      rw [← Nat.succ_mul, Nat.succ_eq_add_one, Nat.sub_add_cancel hc1]
    rw [min_eq_right]
    omega
  · intro hL
    have h0 : (positions.length + interval - 1) / interval = 0 := by
      rw [hL]
      exact Nat.div_eq_of_lt (by omega)
    rw [splitWindows_eq positions interval hI, h0]
    rfl

/-- C3 witness: the partition theorem applied to a three-position list with
interval 2 (two windows) and to the empty list (zero windows). -/
theorem splitWindows_partition_spec_witness :
    (splitWindows [pystr "5", pystr "8", pystr "11"] 2).length = (3 + 2 - 1) / 2 ∧
    splitWindows ([] : List PyStr) 2 = [] :=
  ⟨(splitWindows_partition_spec [pystr "5", pystr "8", pystr "11"] 2 (by decide)).1,
   (splitWindows_partition_spec [] 2 (by decide)).2.2.2.2 rfl⟩

lemma chrposGo_eq_parse (lines : List PyStr) :
    ∀ (last : Option PyStr) (positions : List PyStr) (dict : ChrPos),
      chrposGo last positions dict lines =
        (parseDataLines lines).map (chrposLoop last positions dict) := by
  induction lines with
  | nil => intro last positions dict; rfl
  | cons line rest ih =>
    intro last positions dict
    by_cases hh : pyStartsWith (pystr "#") line = true
    · simp only [chrposGo, parseDataLines, hh, if_pos]
      exact ih last positions dict
    · simp only [chrposGo, parseDataLines, hh, if_neg, Bool.not_eq_true]
      cases hsp : splitOnChar '\t' line with
      | nil => simp
      | cons chrid tl =>
        cases tl with
        | nil => simp
        | cons pos tl2 =>
          by_cases hc : some chrid ≠ last
          · simp only [if_pos hc, ih, Option.map_map]
            refine congrArg (fun f => Option.map f (parseDataLines rest)) (funext fun prs => ?_)
            show chrposLoop (some chrid) [pos] _ prs =
              chrposLoop last positions dict ((chrid, pos) :: prs)
            simp only [chrposLoop, if_pos hc]
          · simp only [if_neg hc, ih, Option.map_map]
            refine congrArg (fun f => Option.map f (parseDataLines rest)) (funext fun prs => ?_)
            show chrposLoop last (positions ++ [pos]) dict prs =
              chrposLoop last positions dict ((chrid, pos) :: prs)
            simp only [chrposLoop, if_neg hc]

lemma consRun_consRun (c : PyStr) (a b : List PyStr) (rs : List (PyStr × List PyStr)) :
    consRun c a (consRun c b rs) = consRun c (a ++ b) rs := by
  cases rs with
  | nil => simp [consRun]
  | cons hd t =>
    obtain ⟨c', ps⟩ := hd
    by_cases h : c = c'
    · subst h
      simp [consRun, List.append_assoc]
    · simp [consRun, h]

lemma consRun_ne (c c₁ : PyStr) (h : c ≠ c₁) (poss b : List PyStr)
    (rs : List (PyStr × List PyStr)) :
    consRun c poss (consRun c₁ b rs) = (c, poss) :: consRun c₁ b rs := by
  cases rs with
  | nil => simp [consRun, h]
  | cons hd t =>
    obtain ⟨c', ps⟩ := hd
    by_cases h2 : c₁ = c'
    · subst h2
      simp [consRun, h]
    · simp [consRun, h, h2]

lemma chrposLoop_eq_runs :
    ∀ (pairs : List (PyStr × PyStr)) (c : PyStr) (poss : List PyStr) (dict : ChrPos),
      poss ≠ [] →
      chrposLoop (some c) poss dict pairs =
        (consRun c poss (runsRef pairs)).foldl (fun d r => dictInsert d r.1 r.2) dict := by
  intro pairs
  induction pairs with
  | nil =>
    intro c poss dict h
    have hp : poss.length > 0 := List.length_pos.mpr h
    simp [chrposLoop, runsRef, consRun, hp]
  | cons hd rest ih =>
    obtain ⟨c₁, p⟩ := hd
    intro c poss dict h
    by_cases hc : c₁ = c
    · subst hc
      have hcond : ¬ (some c₁ ≠ some c₁) := by simp
      simp only [chrposLoop, if_neg hcond]
      rw [ih c₁ (poss ++ [p]) dict (by simp)]
      rw [show runsRef ((c₁, p) :: rest) = consRun c₁ [p] (runsRef rest) from rfl]
      rw [consRun_consRun]
    · have hcond : some c₁ ≠ some c := by simp [hc]
      simp only [chrposLoop, if_pos hcond]
      have hp : poss.length > 0 := List.length_pos.mpr h
      simp only [hp, if_pos]
      rw [ih c₁ [p] (dictInsert dict c poss) (by simp)]
      rw [show runsRef ((c₁, p) :: rest) = consRun c₁ [p] (runsRef rest) from rfl]
      rw [consRun_ne c c₁ (fun he => hc he.symm) poss [p] (runsRef rest)]
      rfl

lemma chrposLoop_none_eq_runs (prs : List (PyStr × PyStr)) :
    chrposLoop none [] [] prs = (runsRef prs).foldl (fun d r => dictInsert d r.1 r.2) [] := by
  cases prs with
  | nil => rfl
  | cons hd rest =>
    obtain ⟨c, p⟩ := hd
    have hcond : some c ≠ none := by simp
    have h1 : chrposLoop none [] [] ((c, p) :: rest) = chrposLoop (some c) [p] [] rest := by
      simp only [chrposLoop, if_pos hcond]
    rw [h1, chrposLoop_eq_runs rest c [p] [] (by simp)]
    rfl

/-- The full refinement: the streaming single-pass indexer equals the
spec-side parse / group-into-runs / overwrite-fold description. -/
lemma chrpos_eq_spec (lines : List PyStr) :
    get_chrpos_from_vcfgz lines = chrposSpec lines := by
  unfold get_chrpos_from_vcfgz chrposSpec
  rw [chrposGo_eq_parse]
  cases hp : parseDataLines lines with
  | none => rfl
  | some prs => simp [chrposLoop_none_eq_runs]

lemma consRun_values_ne_nil (c : PyStr) (ps : List PyStr) (rs : List (PyStr × List PyStr))
    (hps : ps ≠ []) (hrs : ∀ r ∈ rs, r.2 ≠ []) :
    ∀ r ∈ consRun c ps rs, r.2 ≠ [] := by
  cases rs with
  | nil =>
    intro r hr
    simp only [consRun, List.mem_singleton] at hr
    subst hr
    exact hps
  | cons hd t =>
    obtain ⟨c', ps'⟩ := hd
    intro r hr
    by_cases h : c = c'
    · subst h
      simp only [consRun, if_pos rfl] at hr
      cases hr with
      | head => simp [hps]
      | tail _ hr => exact hrs r (by exact List.mem_cons_of_mem _ hr)
    · simp only [consRun, if_neg h, List.mem_cons] at hr
      rcases hr with rfl | hr
      · exact hps
      · exact hrs r (by simpa using hr)

lemma runsRef_values_ne_nil : ∀ prs : List (PyStr × PyStr), ∀ r ∈ runsRef prs, r.2 ≠ [] := by
  intro prs
  induction prs with
  | nil => intro r hr; simp [runsRef] at hr
  | cons hd rest ih =>
    obtain ⟨c, p⟩ := hd
    exact consRun_values_ne_nil c [p] (runsRef rest) (by simp) ih

lemma dictInsert_values_ne_nil (d : ChrPos) (k : PyStr) (v : List PyStr)
    (hd : ∀ kv ∈ d, kv.2 ≠ []) (hv : v ≠ []) :
    ∀ kv ∈ dictInsert d k v, kv.2 ≠ [] := by
  intro kv hkv
  unfold dictInsert at hkv
  split at hkv
  · obtain ⟨p, hp, hpe⟩ := List.mem_map.mp hkv
    by_cases h : p.1 = k
    · rw [if_pos h] at hpe
      subst hpe
      exact hv
    · rw [if_neg h] at hpe
      subst hpe
      exact hd p hp
  · rcases List.mem_append.mp hkv with h | h
    · exact hd kv h
    · simp only [List.mem_singleton] at h
      subst h
      exact hv

lemma foldl_dictInsert_values_ne_nil :
    ∀ (runs : List (PyStr × List PyStr)) (d : ChrPos),
      (∀ kv ∈ d, kv.2 ≠ []) → (∀ r ∈ runs, r.2 ≠ []) →
      ∀ kv ∈ runs.foldl (fun d r => dictInsert d r.1 r.2) d, kv.2 ≠ [] := by
  intro runs
  induction runs with
  | nil => intro d hd _ kv hkv; exact hd kv hkv
  | cons r rs ih =>
    intro d hd hr kv hkv
    exact ih (dictInsert d r.1 r.2)
      (dictInsert_values_ne_nil d r.1 r.2 hd (hr r (by simp)))
      (fun q hq => hr q (by simp [hq])) kv hkv

lemma parseDataLines_all_headers :
    ∀ lines : List PyStr, (∀ l ∈ lines, pyStartsWith (pystr "#") l = true) →
      parseDataLines lines = some [] := by
  intro lines h
  induction lines with
  | nil => rfl
  | cons line rest ih =>
    have h1 : pyStartsWith (pystr "#") line = true := h line (by simp)
    simp only [parseDataLines, h1, if_pos]
    exact ih (fun l hl => h l (by simp [hl]))

/-- C4: `get_chrpos_from_vcfgz` equals its spec-side description — skip every
line starting with `#`, split the remaining lines on tab taking fields 1 and
2 as chromosome id and position, group maximal runs of consecutive lines
sharing a chromosome id into ordered position lists (file order, no
re-sorting), and enter the runs into the mapping so that a non-contiguous
reappearance of a chromosome id overwrites the earlier run's list (`none` on
both sides models the `ValueError` on a data line with fewer than two
fields). -/
theorem get_chrpos_eq_runs_spec (lines : List PyStr) :
    get_chrpos_from_vcfgz lines = chrposSpec lines :=
  chrpos_eq_spec lines

/-- C9: every chromosome key of the mapping produced by
`get_chrpos_from_vcfgz` is bound to a non-empty position list, and a file
with no data lines (empty, or header lines only) yields the empty mapping
rather than an error. -/
theorem get_chrpos_values_nonempty :
    (∀ lines d, get_chrpos_from_vcfgz lines = some d → ∀ kv ∈ d, kv.2 ≠ []) ∧
    (∀ lines : List PyStr, (∀ l ∈ lines, pyStartsWith (pystr "#") l = true) →
      get_chrpos_from_vcfgz lines = some []) := by
  constructor
  · intro lines d hd kv hkv
    rw [chrpos_eq_spec] at hd
    unfold chrposSpec at hd
    cases hp : parseDataLines lines with
    | none => rw [hp] at hd; simp at hd
    | some prs =>
      rw [hp] at hd
      have hd2 : (runsRef prs).foldl (fun d r => dictInsert d r.1 r.2) [] = d := by
        simpa using hd
      subst hd2
      exact foldl_dictInsert_values_ne_nil (runsRef prs) [] (by simp)
        (runsRef_values_ne_nil prs) kv hkv
  · intro lines h
    rw [chrpos_eq_spec]
    unfold chrposSpec
    rw [parseDataLines_all_headers lines h]
    rfl

/-- C9 witness: a header-only file yields the empty mapping, and the run
produced from one data line is bound to a non-empty list. -/
theorem get_chrpos_values_nonempty_witness :
    get_chrpos_from_vcfgz [pystr "#CHROM\tPOS"] = some [] ∧
    ∀ kv ∈ [(pystr "c1", [pystr "10"])], kv.2 ≠ [] :=
  ⟨get_chrpos_values_nonempty.2 [pystr "#CHROM\tPOS"] (by decide),
   get_chrpos_values_nonempty.1 [pystr "c1\t10\tx"] [(pystr "c1", [pystr "10"])] (by decide)⟩

lemma splitOnChar_ne_nil (c : Char) (l : List Char) : splitOnChar c l ≠ [] := by
  cases l with
  | nil => simp [splitOnChar]
  | cons x xs =>
    cases h : splitOnChar c xs with
    | nil => simp [splitOnChar, h]
    | cons r rs =>
      by_cases hx : x = c <;> simp [splitOnChar, h, hx]

lemma joinChar_splitOnChar (c : Char) : ∀ l : List Char, joinChar c (splitOnChar c l) = l := by
  intro l
  induction l with
  | nil => rfl
  | cons x xs ih =>
    cases hs : splitOnChar c xs with
    | nil => exact absurd hs (splitOnChar_ne_nil c xs)
    | cons r rs =>
      rw [hs] at ih
      by_cases hx : x = c
      · subst hx
        simp only [splitOnChar, hs, if_pos rfl]
        show x :: joinChar x (r :: rs) = x :: xs
        rw [ih]
      · simp only [splitOnChar, hs, if_neg hx]
        cases rs with
        | nil =>
          show x :: r = x :: xs
          rw [show joinChar c [r] = r from rfl] at ih
          rw [ih]
        | cons s rs2 =>
          show (x :: r) ++ c :: joinChar c (s :: rs2) = x :: xs
          rw [List.cons_append]
          rw [show joinChar c (r :: s :: rs2) = r ++ c :: joinChar c (s :: rs2) from rfl] at ih
          rw [ih]

lemma splitOnChar_append_cons (c : Char) (w x : List Char) (hw : c ∉ w) :
    splitOnChar c (w ++ c :: x) = w :: splitOnChar c x := by
  induction w with
  | nil =>
    cases hs : splitOnChar c x with
    | nil => exact absurd hs (splitOnChar_ne_nil c x)
    | cons r rs => simp [splitOnChar, hs]
  | cons a w' ih =>
    have ha : a ≠ c := fun he => hw (by simp [he])
    have hw' : c ∉ w' := fun hm => hw (by simp [hm])
    simp only [List.cons_append, splitOnChar, List.append_eq]
    rw [ih hw']
    simp [ha]

lemma pyStripLen_append (x y : PyStr) : pyStripLen (x ++ y) y.length = x := by
  unfold pyStripLen
  rw [List.length_append, Nat.add_sub_cancel]
  exact List.take_left x y

lemma char_ofNat_digit (d : Nat) (hd : d < 10) : (Char.ofNat (48 + d)).isDigit = true := by
  interval_cases d <;> decide

lemma natToDigitsGo_digits :
    ∀ fuel n : Nat, ∀ ch ∈ natToDigitsGo fuel n, ch.isDigit = true := by
  intro fuel
  induction fuel with
  | zero => intro n ch hch; simp [natToDigitsGo] at hch
  | succ f ih =>
    intro n ch hch
    by_cases hn : n < 10
    · simp only [natToDigitsGo, if_pos hn, List.mem_singleton] at hch
      subst hch
      exact char_ofNat_digit n hn
    · simp only [natToDigitsGo, if_neg hn, List.mem_append, List.mem_singleton] at hch
      rcases hch with hch | hch
      · exact ih (n / 10) ch hch
      · subst hch
        exact char_ofNat_digit (n % 10) (Nat.mod_lt _ (by omega))

lemma natToDigits_digits (n : Nat) : ∀ ch ∈ natToDigits n, ch.isDigit = true :=
  natToDigitsGo_digits (n + 1) n

lemma dot_not_mem_window (chrid : PyStr) (a b : Nat) (h : '.' ∉ chrid) :
    '.' ∉ chrid ++ '-' :: natToDigits a ++ '-' :: natToDigits b := by
  intro hmem
  have hcases : '.' ∈ chrid ∨ '.' = '-' ∨ '.' ∈ natToDigits a ∨ '.' ∈ natToDigits b := by
    simp only [List.mem_append, List.mem_cons] at hmem
    tauto
  rcases hcases with h1 | h2 | h3 | h4
  · exact h h1
  · exact absurd h2 (by decide)
  · exact absurd (natToDigits_digits a '.' h3) (by decide)
  · exact absurd (natToDigits_digits b '.' h4) (by decide)

lemma filterOutName_eq (X : PyStr) : filterOutName (X ++ DATA_SUFFIX) = X ++ FILTER_SUFFIX := by
  unfold filterOutName
  rw [pyStripLen_append]

lemma overlapOutName_eq (X : PyStr) :
    overlapOutName (X ++ FILTER_SUFFIX) = X ++ OVERLAP_SUFFIX := by
  unfold overlapOutName
  rw [pyStripLen_append]

lemma splitOutName_eq (chrid : PyStr) (a b : Nat) (X : PyStr) :
    splitOutName chrid a b (X ++ OVERLAP_SUFFIX) =
      (chrid ++ '-' :: natToDigits a ++ '-' :: natToDigits b) ++ '.' :: X ++ SPLIT_SUFFIX := by
  unfold splitOutName
  rw [pyStripLen_append]

lemma genoOutName_eq (W X : PyStr) :
    genoOutName (W ++ '.' :: X ++ SPLIT_SUFFIX) = (W ++ '.' :: X) ++ GENO_SUFFIX := by
  unfold genoOutName
  rw [show W ++ '.' :: X ++ SPLIT_SUFFIX = (W ++ '.' :: X) ++ SPLIT_SUFFIX from rfl,
    pyStripLen_append]

lemma mapOutName_eq (W X : PyStr) :
    mapOutName (W ++ '.' :: X ++ SPLIT_SUFFIX) = (W ++ '.' :: X) ++ MAP_SUFFIX := by
  unfold mapOutName
  rw [show W ++ '.' :: X ++ SPLIT_SUFFIX = (W ++ '.' :: X) ++ SPLIT_SUFFIX from rfl,
    pyStripLen_append]

lemma xpclrBaseName_eq (W X : PyStr) (hW : '.' ∉ W) :
    xpclrBaseName ((W ++ '.' :: X) ++ GENO_SUFFIX) = X := by
  unfold xpclrBaseName
  rw [pyStripLen_append, splitOnChar_append_cons '.' W X hW]
  exact joinChar_splitOnChar '.' X

lemma chrIntervalOf_eq (W Y : PyStr) (hW : '.' ∉ W) :
    chrIntervalOf (W ++ '.' :: Y) = W := by
  unfold chrIntervalOf
  rw [splitOnChar_append_cons '.' W Y hW]
  rfl

/-- C7 counterexample: for stage-1 inputs `a.vcf.gz` / `b.vcf.gz` and window
`chr1-0-9`, the stage-5 artifact name derived through the full suffix chain,
stripped of `.xpclr.txt`, is `chr1-0-9.a_b` — the windowed pair name — and
not the stage-1 base name `a` (nor `b`). -/
theorem stage5_roundtrip_counterexample :
    pyStripLen (stage5ArtifactName (pystr "a.vcf.gz") (pystr "b.vcf.gz") (pystr "chr1") 0 9)
        XPCLR_SUFFIX.length = pystr "chr1-0-9.a_b" ∧
    pyStripLen (stage5ArtifactName (pystr "a.vcf.gz") (pystr "b.vcf.gz") (pystr "chr1") 0 9)
        XPCLR_SUFFIX.length ≠ pystr "a" ∧
    pyStripLen (stage5ArtifactName (pystr "a.vcf.gz") (pystr "b.vcf.gz") (pystr "chr1") 0 9)
        XPCLR_SUFFIX.length ≠ pystr "b" := by
  refine ⟨by decide, by decide, by decide⟩

/-- C7 amended: stripping the stage-5 suffix `.xpclr.txt` from the artifact
name derived through the full chain reproduces the stage-5 base name
`{window}.{base1}_{base2}`, where the window component is
`{chrid}-{lstart}-{lend}`; the stage-1 base names themselves are reproduced
inside the stage-5 derivation — `name1`/`name2` (geno name stripped of
`.geno` with the window component dropped) equal the stage-1 base names, and
the window component is recovered from the map name — provided the
chromosome id contains no dot. -/
theorem stage5_roundtrip_amended (X1 X2 chrid : PyStr) (lstart lend : Nat)
    (hdot : '.' ∉ chrid) :
    pyStripLen (stage5ArtifactName (X1 ++ DATA_SUFFIX) (X2 ++ DATA_SUFFIX) chrid lstart lend)
        XPCLR_SUFFIX.length =
      (chrid ++ '-' :: natToDigits lstart ++ '-' :: natToDigits lend) ++
        '.' :: X1 ++ '_' :: X2 ∧
    xpclrBaseName (genoOutName (splitOutName chrid lstart lend
        (overlapOutName (filterOutName (X1 ++ DATA_SUFFIX))))) = X1 ∧
    xpclrBaseName (genoOutName (splitOutName chrid lstart lend
        (overlapOutName (filterOutName (X2 ++ DATA_SUFFIX))))) = X2 ∧
    chrIntervalOf (mapOutName (splitOutName chrid lstart lend
        (overlapOutName (filterOutName (X1 ++ DATA_SUFFIX))))) =
      chrid ++ '-' :: natToDigits lstart ++ '-' :: natToDigits lend := by
  have hW : '.' ∉ chrid ++ '-' :: natToDigits lstart ++ '-' :: natToDigits lend :=
    dot_not_mem_window chrid lstart lend hdot
  have hg1 : genoOutName (splitOutName chrid lstart lend
      (overlapOutName (filterOutName (X1 ++ DATA_SUFFIX)))) =
      ((chrid ++ '-' :: natToDigits lstart ++ '-' :: natToDigits lend) ++ '.' :: X1) ++
        GENO_SUFFIX := by
    rw [filterOutName_eq, overlapOutName_eq, splitOutName_eq, genoOutName_eq]
  have hg2 : genoOutName (splitOutName chrid lstart lend
      (overlapOutName (filterOutName (X2 ++ DATA_SUFFIX)))) =
      ((chrid ++ '-' :: natToDigits lstart ++ '-' :: natToDigits lend) ++ '.' :: X2) ++
        GENO_SUFFIX := by
    rw [filterOutName_eq, overlapOutName_eq, splitOutName_eq, genoOutName_eq]
  have hm : mapOutName (splitOutName chrid lstart lend
      (overlapOutName (filterOutName (X1 ++ DATA_SUFFIX)))) =
      ((chrid ++ '-' :: natToDigits lstart ++ '-' :: natToDigits lend) ++ '.' :: X1) ++
        MAP_SUFFIX := by
    rw [filterOutName_eq, overlapOutName_eq, splitOutName_eq, mapOutName_eq]
  have hb1 : xpclrBaseName (genoOutName (splitOutName chrid lstart lend
      (overlapOutName (filterOutName (X1 ++ DATA_SUFFIX))))) = X1 := by
    rw [hg1]
    exact xpclrBaseName_eq _ _ hW
  have hb2 : xpclrBaseName (genoOutName (splitOutName chrid lstart lend
      (overlapOutName (filterOutName (X2 ++ DATA_SUFFIX))))) = X2 := by
    rw [hg2]
    exact xpclrBaseName_eq _ _ hW
  have hci : chrIntervalOf (mapOutName (splitOutName chrid lstart lend
      (overlapOutName (filterOutName (X1 ++ DATA_SUFFIX))))) =
      chrid ++ '-' :: natToDigits lstart ++ '-' :: natToDigits lend := by
    rw [hm]
    rw [show ((chrid ++ '-' :: natToDigits lstart ++ '-' :: natToDigits lend) ++ '.' :: X1) ++
        MAP_SUFFIX =
        (chrid ++ '-' :: natToDigits lstart ++ '-' :: natToDigits lend) ++
          '.' :: (X1 ++ MAP_SUFFIX) by simp]
    exact chrIntervalOf_eq _ _ hW
  refine ⟨?_, hb1, hb2, hci⟩
  unfold stage5ArtifactName xpclrArtifactName
  rw [hb1, hb2, hci, pyStripLen_append]

/-- C7 witness: the amended round trip at stage-1 bases `a`/`b` with
chromosome id `chr1` and window indices 0-9. -/
theorem stage5_roundtrip_amended_witness :
    xpclrBaseName (genoOutName (splitOutName (pystr "chr1") 0 9
        (overlapOutName (filterOutName (pystr "a" ++ DATA_SUFFIX))))) = pystr "a" :=
  (stage5_roundtrip_amended (pystr "a") (pystr "b") (pystr "chr1") 0 9 (by decide)).2.1

lemma dropWhile_head_false (p : Char → Bool) :
    ∀ (l : List Char) (x : Char) (xs : List Char), l.dropWhile p = x :: xs → p x = false := by
  intro l
  induction l with
  | nil => intro x xs h; simp [List.dropWhile] at h
  | cons a as ih =>
    intro x xs h
    rw [List.dropWhile_cons] at h
    by_cases hp : p a = true
    · rw [if_pos hp] at h
      exact ih x xs h
    · rw [if_neg hp] at h
      injection h with h1 h2
      simp only [Bool.not_eq_true] at hp
      rw [← h1]
      exact hp

/-- C8: whenever the first `-`-separated piece of the map name's first
dot-component contains a digit, that piece decomposes as
`pre ++ run ++ post` with `run` its first maximal numeric substring (no digit
before it, non-digit or end right after it), the XPCLR invocation is emitted,
and the chromosome-number argument placed in the command equals the integer
value of `run`. -/
theorem xpclr_chrnum_first_numeric (g1 g2 m : PyStr)
    (hdig : ∃ ch ∈ (splitOnChar '-' (chrIntervalOf m)).headD [], ch.isDigit = true) :
    ∃ pre run post : PyStr,
      (splitOnChar '-' (chrIntervalOf m)).headD [] = pre ++ run ++ post ∧
      run ≠ [] ∧
      (∀ ch ∈ run, ch.isDigit = true) ∧
      (∀ ch ∈ pre, ch.isDigit = false) ∧
      (∀ ch ∈ post.take 1, ch.isDigit = false) ∧
      ∃ u, xpclrUnitOf g1 g2 m = some u ∧ u.chrnum = digitsToNat run := by
  set piece := (splitOnChar '-' (chrIntervalOf m)).headD [] with hpiece
  set rest := piece.dropWhile (fun c => !c.isDigit) with hrest
  have hrest_ne : rest ≠ [] := by
    intro hnil
    obtain ⟨ch, hch, hchd⟩ := hdig
    have hall := List.dropWhile_eq_nil_iff.mp (hrest ▸ hnil)
    have := hall ch hch
    simp [hchd] at this
  obtain ⟨x, xs, hx⟩ : ∃ x xs, rest = x :: xs := by
    cases hc : rest with
    | nil => exact absurd hc hrest_ne
    | cons y ys => exact ⟨y, ys, rfl⟩
  have hxdig : x.isDigit = true := by
    have := dropWhile_head_false (fun c => !c.isDigit) piece x xs (by rw [← hrest, hx])
    simpa using this
  refine ⟨piece.takeWhile (fun c => !c.isDigit), rest.takeWhile Char.isDigit,
    rest.dropWhile Char.isDigit, ?_, ?_, ?_, ?_, ?_, ?_⟩
  · have h1 : piece.takeWhile (fun c => !c.isDigit) ++ rest = piece := by
      rw [hrest]
      exact List.takeWhile_append_dropWhile _ _
    have h2 : rest.takeWhile Char.isDigit ++ rest.dropWhile Char.isDigit = rest :=
      List.takeWhile_append_dropWhile _ _
    rw [List.append_assoc, h2, h1]
  · rw [hx, List.takeWhile_cons, if_pos hxdig]
    simp
  · intro ch hch
    exact List.mem_takeWhile_imp hch
  · intro ch hch
    have := List.mem_takeWhile_imp hch
    simpa using this
  · intro ch hch
    cases hpost : rest.dropWhile Char.isDigit with
    | nil =>
      rw [hpost] at hch
      simp at hch
    | cons y ys =>
      rw [hpost] at hch
      simp only [List.take_succ_cons, List.take_zero, List.mem_singleton] at hch
      subst hch
      exact dropWhile_head_false Char.isDigit rest ch ys hpost
  · have hsearch : reSearchDigits piece = some (rest.takeWhile Char.isDigit) := by
      unfold reSearchDigits
      rw [← hrest, hx]
    have hchrnum : chrnumOfMapName m =
        some (digitsToNat (rest.takeWhile Char.isDigit)) := by
      unfold chrnumOfMapName
      rw [← hpiece, hsearch]
      rfl
    exact ⟨_, by unfold xpclrUnitOf; rw [hchrnum], rfl⟩

/-- C8 witness: the map name `chr12-0-9.a_b.map`, whose window component's
first piece is `chr12`, yields chromosome number 12 in the emitted command. -/
theorem xpclr_chrnum_first_numeric_witness :
    ∃ pre run post : PyStr,
      (splitOnChar '-' (chrIntervalOf (pystr "chr12-0-9.a_b.map"))).headD [] =
        pre ++ run ++ post ∧
      run ≠ [] ∧
      (∀ ch ∈ run, ch.isDigit = true) ∧
      (∀ ch ∈ pre, ch.isDigit = false) ∧
      (∀ ch ∈ post.take 1, ch.isDigit = false) ∧
      ∃ u, xpclrUnitOf (pystr "chr12-0-9.a.geno") (pystr "chr12-0-9.b.geno")
          (pystr "chr12-0-9.a_b.map") = some u ∧ u.chrnum = digitsToNat run :=
  xpclr_chrnum_first_numeric (pystr "chr12-0-9.a.geno") (pystr "chr12-0-9.b.geno")
    (pystr "chr12-0-9.a_b.map") (by decide)
